import Mathlib

/-!
Verification of the FLIR ROI viewer core.

Shallow embedding of the core data pipeline of the FLIR Lepton ROI viewer
(`ROIviewer.py`, `main.py`): unit conversion, nearest-neighbor frame scaling,
frame/region statistics, the bounded frame buffer, the region registry,
and the single-client TCP control server.

Numbers: the Python code computes temperatures with `float` arithmetic; the
embedding uses exact rational arithmetic (`ℚ`).  Raw radiometric samples are
unsigned 16-bit values, embedded as `ℕ`.
-/

namespace FLIRROI

/-! ### Unit conversion (ROIviewer.py, `ktoc` lines 451-453, `ctok` lines 455-458) -/

/-- `ktoc`: convert raw data (in centikelvin) to degrees Celsius:
`(val - 27315) / 100.0`. -/
def ktoc (val : ℚ) : ℚ := (val - 27315) / 100

/-- `ctok`: convert from degrees Celsius to raw data: `(val * 100) + 27315`. -/
def ctok (val : ℚ) : ℚ := val * 100 + 27315

/-- Round a rational to the nearest integer, ties to even — the rounding used
by Python's built-in `round` and by `np.round`. -/
def roundQ (x : ℚ) : ℤ :=
  if x - ⌊x⌋ < 1/2 then ⌊x⌋
  else if (1:ℚ)/2 < x - ⌊x⌋ then ⌊x⌋ + 1
  else if ⌊x⌋ % 2 = 0 then ⌊x⌋ else ⌊x⌋ + 1

/-- `round(x, 1)` / `np.round(x, 1)`: round to one decimal place. -/
def roundTo1 (x : ℚ) : ℚ := (roundQ (x * 10) : ℚ) / 10

lemma roundQ_intCast (n : ℤ) : roundQ (n : ℚ) = n := by
  unfold roundQ
  rw [Int.floor_intCast]
  simp

lemma roundTo1_intCast (n : ℤ) : roundTo1 (n : ℚ) = n := by
  unfold roundTo1
  have h : ((n : ℚ) * 10) = ((n * 10 : ℤ) : ℚ) := by push_cast; ring
  rw [h, roundQ_intCast]
  push_cast
  ring

/-- Claim C2: `ktoc` and `ctok` are exact inverses up to one-decimal rounding:
for every integer `c`, `round(ktoc(ctok(c)), 1) = c`; in particular
`ktoc 27315 = 0` and `ktoc 30315 = 30`. -/
theorem ktoc_ctok_roundtrip (c : ℤ) :
    roundTo1 (ktoc (ctok (c : ℚ))) = (c : ℚ) ∧
    ktoc 27315 = 0 ∧ ktoc 30315 = 30 := by
  refine ⟨?_, by norm_num [ktoc], by norm_num [ktoc]⟩
  have h : ktoc (ctok (c : ℚ)) = (c : ℚ) := by
    unfold ktoc ctok
    field_simp
  rw [h, roundTo1_intCast]

/-! ### Frames and statistics

A raw frame is a 2D array of unsigned 16-bit radiometric samples (embedded as
`ℕ`), stored as a list of rows.  NumPy's `.min()`, `.max()`, `.mean()` over a
2D array see the flattened multiset of samples.
-/

/-- A 2D array of raw radiometric samples, as a list of rows. -/
abbrev Frame := List (List ℕ)

/-- All samples of a frame, row-major. -/
def flattenF (f : Frame) : List ℕ := f.flatten

/-- NumPy `.min()` over the samples (junk value 0 on an empty array, on which
NumPy raises; all uses are guarded by nonemptiness). -/
def lmin : List ℕ → ℕ
  | [] => 0
  | x :: xs => xs.foldl min x

/-- NumPy `.max()` over the samples (junk value 0 on an empty array). -/
def lmax : List ℕ → ℕ
  | [] => 0
  | x :: xs => xs.foldl max x

/-- NumPy `.mean()` over the samples (sum divided by count; `0/0 = 0` junk on
an empty array). -/
def lmean (l : List ℕ) : ℚ := (l.sum : ℚ) / (l.length : ℚ)

/-- A `{"min.": _, "avg.": _, "max.": _}` entry of the published temperature
snapshot, in degrees Celsius rounded to one decimal place. -/
structure Stats where
  minC : ℚ
  avgC : ℚ
  maxC : ℚ
deriving DecidableEq, Repr

/-- The statistics the viewer computes from an array of raw samples:
`round(ktoc(arr.min()), 1)`, `round(ktoc(arr.mean()), 1)`,
`round(ktoc(arr.max()), 1)` (ROIviewer.py lines 269-280). -/
def statsOf (l : List ℕ) : Stats :=
  ⟨roundTo1 (ktoc (lmin l)), roundTo1 (ktoc (lmean l)), roundTo1 (ktoc (lmax l))⟩

lemma foldl_min_le_init (xs : List ℕ) : ∀ a : ℕ, xs.foldl min a ≤ a := by
  induction xs with
  | nil => intro a; simp
  | cons x xs ih =>
    intro a
    calc (x :: xs).foldl min a = xs.foldl min (min a x) := rfl
    _ ≤ min a x := ih (min a x)
    _ ≤ a := min_le_left _ _

lemma foldl_min_le_mem (xs : List ℕ) : ∀ (a x : ℕ), x ∈ xs → xs.foldl min a ≤ x := by
  induction xs with
  | nil => intro a x hx; cases hx
  | cons y ys ih =>
    intro a x hx
    rcases List.mem_cons.1 hx with h | h
    · subst h
      calc (x :: ys).foldl min a = ys.foldl min (min a x) := rfl
      _ ≤ min a x := foldl_min_le_init _ _
      _ ≤ x := min_le_right _ _
    · exact ih (min a y) x h

lemma foldl_min_mem (xs : List ℕ) : ∀ a : ℕ, xs.foldl min a = a ∨ xs.foldl min a ∈ xs := by
  induction xs with
  | nil => intro a; left; rfl
  | cons x xs ih =>
    intro a
    rcases ih (min a x) with h | h
    · rcases min_choice a x with hm | hm
      · left; show xs.foldl min (min a x) = a; rw [h, hm]
      · right; show xs.foldl min (min a x) ∈ x :: xs; rw [h, hm]; exact List.mem_cons_self _ _
    · right; exact List.mem_cons_of_mem _ h

lemma lmin_mem (l : List ℕ) (h : l ≠ []) : lmin l ∈ l := by
  match l with
  | [] => exact absurd rfl h
  | x :: xs =>
    rcases foldl_min_mem xs x with h' | h'
    · show xs.foldl min x ∈ x :: xs; rw [h']; exact List.mem_cons_self _ _
    · exact List.mem_cons_of_mem _ h'

lemma lmin_le (l : List ℕ) (x : ℕ) (hx : x ∈ l) : lmin l ≤ x := by
  match l with
  | [] => cases hx
  | y :: ys =>
    rcases List.mem_cons.1 hx with h | h
    · subst h; exact foldl_min_le_init ys x
    · exact foldl_min_le_mem ys y x h

lemma foldl_max_init_le (xs : List ℕ) : ∀ a : ℕ, a ≤ xs.foldl max a := by
  induction xs with
  | nil => intro a; simp
  | cons x xs ih =>
    intro a
    calc a ≤ max a x := le_max_left _ _
    _ ≤ xs.foldl max (max a x) := ih (max a x)
    _ = (x :: xs).foldl max a := rfl

lemma foldl_max_mem_le (xs : List ℕ) : ∀ (a x : ℕ), x ∈ xs → x ≤ xs.foldl max a := by
  induction xs with
  | nil => intro a x hx; cases hx
  | cons y ys ih =>
    intro a x hx
    rcases List.mem_cons.1 hx with h | h
    · subst h
      calc x ≤ max a x := le_max_right _ _
      _ ≤ ys.foldl max (max a x) := foldl_max_init_le _ _
    · exact ih (max a y) x h

lemma foldl_max_mem (xs : List ℕ) : ∀ a : ℕ, xs.foldl max a = a ∨ xs.foldl max a ∈ xs := by
  induction xs with
  | nil => intro a; left; rfl
  | cons x xs ih =>
    intro a
    rcases ih (max a x) with h | h
    · rcases max_choice a x with hm | hm
      · left; show xs.foldl max (max a x) = a; rw [h, hm]
      · right; show xs.foldl max (max a x) ∈ x :: xs; rw [h, hm]; exact List.mem_cons_self _ _
    · right; exact List.mem_cons_of_mem _ h

lemma lmax_mem (l : List ℕ) (h : l ≠ []) : lmax l ∈ l := by
  match l with
  | [] => exact absurd rfl h
  | x :: xs =>
    rcases foldl_max_mem xs x with h' | h'
    · show xs.foldl max x ∈ x :: xs; rw [h']; exact List.mem_cons_self _ _
    · exact List.mem_cons_of_mem _ h'

lemma le_lmax (l : List ℕ) (x : ℕ) (hx : x ∈ l) : x ≤ lmax l := by
  match l with
  | [] => cases hx
  | y :: ys =>
    rcases List.mem_cons.1 hx with h | h
    · subst h; exact foldl_max_init_le ys x
    · exact foldl_max_mem_le ys y x h

lemma lmin_congr (l₁ l₂ : List ℕ) (h₁ : l₁ ≠ []) (h₂ : l₂ ≠ [])
    (hmem : ∀ x, x ∈ l₁ ↔ x ∈ l₂) : lmin l₁ = lmin l₂ :=
  le_antisymm (lmin_le l₁ _ ((hmem _).2 (lmin_mem l₂ h₂)))
    (lmin_le l₂ _ ((hmem _).1 (lmin_mem l₁ h₁)))

lemma lmax_congr (l₁ l₂ : List ℕ) (h₁ : l₁ ≠ []) (h₂ : l₂ ≠ [])
    (hmem : ∀ x, x ∈ l₁ ↔ x ∈ l₂) : lmax l₁ = lmax l₂ :=
  le_antisymm (le_lmax l₂ _ ((hmem _).1 (lmax_mem l₁ h₁)))
    (le_lmax l₁ _ ((hmem _).2 (lmax_mem l₂ h₂)))

lemma lmean_scale (c : ℕ) (hc : c ≠ 0) (l₁ l₂ : List ℕ)
    (hsum : l₂.sum = c * l₁.sum) (hlen : l₂.length = c * l₁.length) :
    lmean l₂ = lmean l₁ := by
  unfold lmean
  rw [hsum, hlen]
  push_cast
  exact mul_div_mul_left _ _ (by exact_mod_cast hc)

/-- Min, mean and max (hence `statsOf`) agree on two sample lists when the
second holds the same values, each with multiplicity scaled by `c ≠ 0`. -/
lemma statsOf_congr_scale (c : ℕ) (hc : c ≠ 0) (l₁ l₂ : List ℕ) (hne : l₁ ≠ [])
    (hmem : ∀ x, x ∈ l₂ ↔ x ∈ l₁)
    (hsum : l₂.sum = c * l₁.sum) (hlen : l₂.length = c * l₁.length) :
    statsOf l₂ = statsOf l₁ := by
  have hne₂ : l₂ ≠ [] := by
    intro h
    have hl : l₂.length = 0 := by rw [h]; rfl
    rw [hlen, Nat.mul_eq_zero] at hl
    rcases hl with h0 | h0
    · exact hc h0
    · exact hne (List.length_eq_zero.1 h0)
  unfold statsOf
  rw [lmin_congr l₂ l₁ hne₂ hne (fun x => hmem x),
    lmax_congr l₂ l₁ hne₂ hne (fun x => hmem x),
    lmean_scale c hc l₁ l₂ hsum hlen]

/-! ### Nearest-neighbor scaling by an integer factor

`cv2.resize(data, (S*w, S*h), interpolation=cv2.INTER_NEAREST)` with an exact
integer factor `S` maps destination pixel `(i, j)` to source pixel
`(i / S, j / S)`: each source sample is replicated into an `S × S` block, with
no blending.  Embedded by replicating each sample `S` times within its row and
each row `S` times.
-/

/-- One row scaled horizontally by factor `S`: each sample replicated `S`
times. -/
def scaleRow (S : ℕ) (row : List ℕ) : List ℕ := row.flatMap (fun v => List.replicate S v)

/-- A frame scaled by integer factor `S` with nearest-neighbor sampling: each
row is scaled horizontally and replicated `S` times vertically. -/
def scaleNN (S : ℕ) (f : Frame) : Frame :=
  f.flatMap (fun row => List.replicate S (scaleRow S row))

lemma mem_scaleRow {S : ℕ} (hS : 0 < S) {row : List ℕ} {x : ℕ} :
    x ∈ scaleRow S row ↔ x ∈ row := by
  unfold scaleRow
  rw [List.mem_flatMap]
  constructor
  · rintro ⟨a, ha, hx⟩
    rw [List.mem_replicate] at hx
    rw [hx.2]; exact ha
  · intro hx
    exact ⟨x, hx, List.mem_replicate.2 ⟨Nat.pos_iff_ne_zero.1 hS, rfl⟩⟩

lemma mem_flattenF {f : Frame} {x : ℕ} : x ∈ flattenF f ↔ ∃ r ∈ f, x ∈ r :=
  List.mem_flatten

lemma mem_flattenF_scaleNN {S : ℕ} (hS : 0 < S) {f : Frame} {x : ℕ} :
    x ∈ flattenF (scaleNN S f) ↔ x ∈ flattenF f := by
  rw [mem_flattenF, mem_flattenF]
  unfold scaleNN
  constructor
  · rintro ⟨r, hr, hx⟩
    rw [List.mem_flatMap] at hr
    rcases hr with ⟨row, hrow, hrep⟩
    rw [List.mem_replicate] at hrep
    rw [hrep.2] at hx
    exact ⟨row, hrow, (mem_scaleRow hS).1 hx⟩
  · rintro ⟨row, hrow, hx⟩
    refine ⟨scaleRow S row, ?_, (mem_scaleRow hS).2 hx⟩
    rw [List.mem_flatMap]
    exact ⟨row, hrow, List.mem_replicate.2 ⟨Nat.pos_iff_ne_zero.1 hS, rfl⟩⟩

lemma sum_replicate_nat (n x : ℕ) : (List.replicate n x).sum = n * x := by
  induction n with
  | zero => simp
  | succ n ih => rw [List.replicate_succ, List.sum_cons, ih]; ring

lemma sum_scaleRow (S : ℕ) (row : List ℕ) : (scaleRow S row).sum = S * row.sum := by
  unfold scaleRow
  induction row with
  | nil => simp
  | cons x xs ih =>
    rw [List.flatMap_cons, List.sum_append, ih, List.sum_cons, sum_replicate_nat]
    ring

lemma length_scaleRow (S : ℕ) (row : List ℕ) : (scaleRow S row).length = S * row.length := by
  unfold scaleRow
  induction row with
  | nil => simp
  | cons x xs ih =>
    rw [List.flatMap_cons, List.length_append, ih, List.length_cons, List.length_replicate]
    ring

lemma sum_flatten_replicate (n : ℕ) (l : List ℕ) :
    ((List.replicate n l).flatten).sum = n * l.sum := by
  induction n with
  | zero => simp
  | succ n ih => rw [List.replicate_succ, List.flatten_cons, List.sum_append, ih]; ring

lemma length_flatten_replicate {α : Type} (n : ℕ) (l : List α) :
    ((List.replicate n l).flatten).length = n * l.length := by
  induction n with
  | zero => simp
  | succ n ih => rw [List.replicate_succ, List.flatten_cons, List.length_append, ih]; ring

lemma sum_flattenF_scaleNN (S : ℕ) (f : Frame) :
    (flattenF (scaleNN S f)).sum = S * S * (flattenF f).sum := by
  unfold flattenF scaleNN
  induction f with
  | nil => simp
  | cons row rows ih =>
    rw [List.flatMap_cons, List.flatten_append, List.sum_append, ih,
      List.flatten_cons, List.sum_append, sum_flatten_replicate, sum_scaleRow]
    ring

lemma length_flattenF_scaleNN (S : ℕ) (f : Frame) :
    (flattenF (scaleNN S f)).length = S * S * (flattenF f).length := by
  unfold flattenF scaleNN
  induction f with
  | nil => simp
  | cons row rows ih =>
    rw [List.flatMap_cons, List.flatten_append, List.length_append, ih,
      List.flatten_cons, List.length_append, length_flatten_replicate, length_scaleRow]
    ring

/-- Integer-factor nearest-neighbor scaling preserves min, mean and max. -/
lemma statsOf_flattenF_scaleNN {S : ℕ} (hS : 0 < S) (f : Frame)
    (hne : flattenF f ≠ []) :
    statsOf (flattenF (scaleNN S f)) = statsOf (flattenF f) :=
  statsOf_congr_scale (S * S)
    (by positivity)
    (flattenF f) (flattenF (scaleNN S f)) hne
    (fun x => mem_flattenF_scaleNN hS)
    (sum_flattenF_scaleNN S f) (length_flattenF_scaleNN S f)

/-! ### Transposition (`data.T` in `get_image`)

`get_image` rotates the frame for display with `data.T` before scaling.  For a
rectangular frame (all rows of width `W`) the transpose is the list of the `W`
columns; transposition permutes the samples, so every whole-frame statistic is
unchanged.
-/

/-- NumPy `.T` of a rectangular 2D array: the list of its columns. -/
def transposeF (f : Frame) : Frame :=
  (List.range (f.headD []).length).map (fun j => f.map (fun r => r.getD j 0))

/-- A frame is rectangular with row width `W`. -/
def RectW (f : Frame) (W : ℕ) : Prop := ∀ r ∈ f, r.length = W

lemma headD_length_of_rect {f : Frame} {W : ℕ} (hrect : RectW f W) (hne : f ≠ []) :
    (f.headD []).length = W := by
  match f with
  | [] => exact absurd rfl hne
  | r :: rs => exact hrect r (List.mem_cons_self _ _)

lemma mem_flattenF_transposeF {f : Frame} {W : ℕ} (hrect : RectW f W) {x : ℕ} :
    x ∈ flattenF (transposeF f) ↔ x ∈ flattenF f := by
  rw [mem_flattenF, mem_flattenF]
  unfold transposeF
  constructor
  · rintro ⟨col, hcol, hx⟩
    rw [List.mem_map] at hcol
    rcases hcol with ⟨j, hj, hcol⟩
    rw [List.mem_range] at hj
    rw [← hcol] at hx
    rw [List.mem_map] at hx
    rcases hx with ⟨r, hr, hget⟩
    have hjr : j < r.length := by
      rw [hrect r hr]
      have hfne : f ≠ [] := by
        intro h; rw [h] at hr; cases hr
      rw [← headD_length_of_rect hrect hfne]
      exact hj
    refine ⟨r, hr, ?_⟩
    rw [← hget, List.getD_eq_getElem r 0 hjr]
    exact List.getElem_mem hjr
  · rintro ⟨r, hr, hx⟩
    rcases List.mem_iff_getElem.1 hx with ⟨j, hj, hget⟩
    have hfne : f ≠ [] := by
      intro h; rw [h] at hr; cases hr
    refine ⟨f.map (fun r => r.getD j 0), ?_, ?_⟩
    · rw [List.mem_map]
      refine ⟨j, ?_, rfl⟩
      rw [List.mem_range, headD_length_of_rect hrect hfne, ← hrect r hr]
      exact hj
    · rw [List.mem_map]
      refine ⟨r, hr, ?_⟩
      rw [List.getD_eq_getElem r 0 hj, hget]

lemma sum_map_eq_sum_range {α : Type} (g : α → ℕ) (d : α) (l : List α) :
    (l.map g).sum = ∑ i ∈ Finset.range l.length, g (l.getD i d) := by
  induction l with
  | nil => simp
  | cons a l ih =>
    rw [List.map_cons, List.sum_cons, List.length_cons, Finset.sum_range_succ']
    simp only [List.getD_cons_succ, List.getD_cons_zero]
    rw [ih]
    ring

lemma sum_map_range (n : ℕ) (g : ℕ → ℕ) :
    ((List.range n).map g).sum = ∑ i ∈ Finset.range n, g i := by
  induction n with
  | zero => simp
  | succ n ih =>
    rw [List.range_succ, List.map_append, List.sum_append, Finset.sum_range_succ, ih]
    simp

lemma sum_flattenF_transposeF {f : Frame} {W : ℕ} (hrect : RectW f W) (hne : f ≠ []) :
    (flattenF (transposeF f)).sum = (flattenF f).sum := by
  unfold flattenF transposeF
  rw [List.sum_flatten, List.sum_flatten, List.map_map,
    headD_length_of_rect hrect hne]
  have hcols : ((List.range W).map (List.sum ∘ fun j => f.map (fun r => r.getD j 0))).sum
      = ∑ j ∈ Finset.range W, ∑ i ∈ Finset.range f.length, (f.getD i []).getD j 0 := by
    rw [sum_map_range]
    refine Finset.sum_congr rfl (fun j _ => ?_)
    exact sum_map_eq_sum_range (fun r => r.getD j 0) [] f
  rw [hcols, Finset.sum_comm]
  rw [sum_map_eq_sum_range List.sum [] f]
  refine (Finset.sum_congr rfl (fun i hi => ?_)).symm
  rw [Finset.mem_range] at hi
  have hmem : f.getD i [] ∈ f := by
    rw [List.getD_eq_getElem f [] hi]
    exact List.getElem_mem hi
  calc (f.getD i []).sum
      = ((f.getD i []).map id).sum := by rw [List.map_id]
    _ = ∑ j ∈ Finset.range (f.getD i []).length, (f.getD i []).getD j 0 := by
        exact sum_map_eq_sum_range id 0 (f.getD i [])
    _ = ∑ j ∈ Finset.range W, (f.getD i []).getD j 0 := by
        rw [hrect _ hmem]

lemma length_flattenF_transposeF {f : Frame} {W : ℕ} (hrect : RectW f W) (hne : f ≠ []) :
    (flattenF (transposeF f)).length = (flattenF f).length := by
  unfold flattenF transposeF
  rw [List.length_flatten, List.length_flatten, List.map_map,
    headD_length_of_rect hrect hne]
  have hcols : ((List.range W).map (List.length ∘ fun j => f.map (fun r => r.getD j 0))).sum
      = ∑ _j ∈ Finset.range W, f.length := by
    rw [sum_map_range]
    exact Finset.sum_congr rfl (fun j _ => by simp)
  rw [hcols, Finset.sum_const, Finset.card_range, smul_eq_mul]
  rw [sum_map_eq_sum_range List.length [] f]
  have hrows : ∑ i ∈ Finset.range f.length, (f.getD i []).length
      = ∑ _i ∈ Finset.range f.length, W := by
    refine Finset.sum_congr rfl (fun i hi => ?_)
    rw [Finset.mem_range] at hi
    have hmem : f.getD i [] ∈ f := by
      rw [List.getD_eq_getElem f [] hi]
      exact List.getElem_mem hi
    exact hrect _ hmem
  rw [hrows, Finset.sum_const, Finset.card_range, smul_eq_mul, Nat.mul_comm]

/-- Transposition of a rectangular frame preserves min, mean and max. -/
lemma statsOf_flattenF_transposeF {f : Frame} {W : ℕ} (hrect : RectW f W)
    (hne : flattenF f ≠ []) :
    statsOf (flattenF (transposeF f)) = statsOf (flattenF f) := by
  have hfne : f ≠ [] := by
    intro h; apply hne; rw [h]; rfl
  refine statsOf_congr_scale 1 one_ne_zero (flattenF f) (flattenF (transposeF f)) hne
    (fun x => mem_flattenF_transposeF hrect) ?_ ?_
  · rw [sum_flattenF_transposeF hrect hfne, one_mul]
  · rw [length_flattenF_transposeF hrect hfne, one_mul]

/-! ### Display image production (`raw_to_8bit` lines 460-466, `get_image` lines 444-449) -/

/-- `cv2.normalize(data, data, 0, 65535, cv2.NORM_MINMAX)` on 16-bit data:
in-place linear min-max stretch of the samples onto `[0, 65535]` (all zeros
when the samples are constant, since OpenCV then uses scale factor 0), with
`cvRound`'s round-half-to-even. -/
def normalizeMinMax (l : List ℕ) : List ℕ :=
  if lmin l < lmax l then
    l.map (fun x => (roundQ (((x : ℚ) - lmin l) * 65535 / ((lmax l : ℚ) - lmin l))).toNat)
  else l.map (fun _ => 0)

/-- `raw_to_8bit`: normalize to the 16-bit range, right-shift by 8 bits, both
in place on the buffer it is handed, then return the values as `np.uint8`.
Result: (final contents of the handed buffer, the returned 8-bit array). -/
def raw_to_8bit (data : List ℕ) : List ℕ × List ℕ :=
  let d1 := normalizeMinMax data
  let d2 := d1.map (fun x => x >>> 8)
  (d2, d2.map (fun x => x % 256))

/-- `get_image`: scale and rotate the raw data with
`cv2.resize(data.T, (scale*h, scale*w), interpolation=cv2.INTER_NEAREST)`,
then produce the 8-bit display image from an independent copy
(`np.copy(data)`) so the scaled raw data stays unmodified; returns
`(scaled_frame, img)`.  The first component of `raw_to_8bit`'s result — the
mutated copy — is discarded. -/
def get_image (data : Frame) (scale : ℕ) : Frame × List ℕ :=
  let scaled := scaleNN scale (transposeF data)
  let res := raw_to_8bit (flattenF scaled)
  (scaled, res.2)

/-- Claim C8: the display-normalization step operates only on an independent
copy: the ScaledFrame returned by `get_image` is exactly the nearest-neighbor
scaling of the (rotated) raw frame, unchanged by normalization, and every one
of its samples is an exact raw sample. -/
theorem get_image_keeps_raw_samples (data : Frame) (S : ℕ) (hS : 0 < S) :
    (get_image data S).1 = scaleNN S (transposeF data) ∧
    ∀ x ∈ flattenF ((get_image data S).1), x ∈ flattenF (transposeF data) :=
  ⟨rfl, fun _x hx => (mem_flattenF_scaleNN hS).1 hx⟩

/-- Witness for C8 at a concrete 2×2 frame with scale factor 2. -/
theorem get_image_keeps_raw_samples_witness :
    (get_image [[0, 100], [200, 300]] 2).1 = scaleNN 2 (transposeF [[0, 100], [200, 300]]) ∧
    ∀ x ∈ flattenF ((get_image [[0, 100], [200, 300]] 2).1),
      x ∈ flattenF (transposeF [[0, 100], [200, 300]]) :=
  get_image_keeps_raw_samples [[0, 100], [200, 300]] 2 (by decide)

/-! ### The published snapshot (`update_frame`, lines 267-283) -/

/-- The snapshot key of region `i`: `"  ROI " + str(i)` (line 280). -/
def roiKey (i : ℕ) : String := "  ROI " ++ toString i

/-- The snapshot dictionary built by one render cycle (`update_frame`): a
fresh dict with a `"frame"` entry holding whole-frame statistics of the raw
frame, then one entry per region in registry order holding the statistics of
the samples that region selects from the scaled frame.  `roi.getArrayRegion`
is an external (UI toolkit) collaborator; `roiSamples` stands for the sample
lists it returns, in registry order. -/
def update_frame (raw : Frame) (roiSamples : List (List ℕ)) : List (String × Stats) :=
  ("frame", statsOf (flattenF raw)) ::
    roiSamples.enum.map (fun p => (roiKey p.1, statsOf p.2))

/-- Claim C1: the published snapshot's `"frame"` entry — computed by the code
over the unscaled raw frame — equals the min/mean/max statistics computed
over the full ScaledFrame, both as the claim words it (the frame scaled by
integer factor `S` with nearest-neighbor sampling) and for the actual
ScaledFrame returned by `get_image` (which also rotates): integer-factor
nearest-neighbor scaling preserves min, mean and max. -/
theorem frame_entry_matches_scaledframe (S W : ℕ) (raw : Frame)
    (roiSamples : List (List ℕ)) (hS : 0 < S) (hne : flattenF raw ≠ [])
    (hrect : RectW raw W) :
    (update_frame raw roiSamples).head? =
      some ("frame", statsOf (flattenF (scaleNN S raw))) ∧
    statsOf (flattenF (scaleNN S raw)) = statsOf (flattenF ((get_image raw S).1)) := by
  have hscaled : statsOf (flattenF (scaleNN S raw)) = statsOf (flattenF raw) :=
    statsOf_flattenF_scaleNN hS raw hne
  have hfne : raw ≠ [] := by
    intro h; apply hne; rw [h]; rfl
  have htne : flattenF (transposeF raw) ≠ [] := by
    intro h
    apply hne
    have h0 : (flattenF (transposeF raw)).length = 0 := by rw [h]; rfl
    rw [length_flattenF_transposeF hrect hfne] at h0
    exact List.length_eq_zero.1 h0
  constructor
  · show some ("frame", statsOf (flattenF raw)) = _
    rw [hscaled]
  · have h1 : (get_image raw S).1 = scaleNN S (transposeF raw) := rfl
    rw [h1, statsOf_flattenF_scaleNN hS (transposeF raw) htne,
      statsOf_flattenF_transposeF hrect hne, hscaled]

/-- Witness for C1 at a concrete 2×2 frame with scale factor 2. -/
theorem frame_entry_matches_scaledframe_witness :
    (update_frame [[27315, 27415], [27515, 27615]] []).head? =
      some ("frame", statsOf (flattenF (scaleNN 2 [[27315, 27415], [27515, 27615]]))) ∧
    statsOf (flattenF (scaleNN 2 [[27315, 27415], [27515, 27615]])) =
      statsOf (flattenF ((get_image [[27315, 27415], [27515, 27615]] 2).1)) :=
  frame_entry_matches_scaledframe 2 2 [[27315, 27415], [27515, 27615]] []
    (by decide) (by decide)
    (by intro r hr; rcases List.mem_cons.1 hr with h | h
        · rw [h]; rfl
        · rcases List.mem_cons.1 h with h' | h'
          · rw [h']; rfl
          · cases h')

/-! ### Viewer / control-server state -/

/-- The mutable state of `FLIRROIWindow` relevant to the control server and
snapshot publication: the active TCP connection (`self.clientConnection`,
represented by a client id), the screenshot folder, the file-name prefix
(`self.prefix`, here `pfx`), the composed file name (`self.file_name`), the
pending screenshot flag (`self.snapshot`), and the published snapshot
(`self.temperatures`). -/
structure ServerState where
  clientConnection : Option ℕ
  folder : String
  pfx : String
  fileName : Option String
  snapshotFlag : Bool
  temperatures : List (String × Stats)
deriving DecidableEq, Repr

/-- Line 283, `self.temperatures = data`: the freshly built snapshot replaces
the published one wholesale in a single reference assignment — the old
snapshot is never consulted or mutated field-by-field. -/
def publishSnapshot (st : ServerState) (raw : Frame)
    (roiSamples : List (List ℕ)) : ServerState :=
  { st with temperatures := update_frame raw roiSamples }

/-- Claim C4: after every render cycle — for any region count, including
zero — the published snapshot is the freshly built dict (replaced wholesale),
has exactly `1 + len(regions)` entries, starts with the `"frame"` entry, and
carries one entry per region in registry order. -/
theorem snapshot_shape (st : ServerState) (raw : Frame)
    (roiSamples : List (List ℕ)) :
    (publishSnapshot st raw roiSamples).temperatures = update_frame raw roiSamples ∧
    (publishSnapshot st raw roiSamples).temperatures.length = 1 + roiSamples.length ∧
    (publishSnapshot st raw roiSamples).temperatures.head? =
      some ("frame", statsOf (flattenF raw)) ∧
    ∀ i : ℕ, (publishSnapshot st raw roiSamples).temperatures[i + 1]? =
      (roiSamples[i]?).map (fun s => (roiKey i, statsOf s)) := by
  refine ⟨rfl, ?_, rfl, ?_⟩
  · show (update_frame raw roiSamples).length = 1 + roiSamples.length
    unfold update_frame
    rw [List.length_cons, List.length_map, List.enum_length]
    exact Nat.add_comm _ _
  · intro i
    show (update_frame raw roiSamples)[i + 1]? = _
    unfold update_frame
    rw [List.getElem?_cons_succ, List.getElem?_map, List.getElem?_enum,
      Option.map_map]
    rfl

/-! ### Bounded frame buffer (main.py: `BUFFER_SIZE` line 39, `py_frame_callback` lines 44-63) -/

/-- `BUFFER_SIZE = 3`: capacity of the FIFO frame queue `q = Queue(BUFFER_SIZE)`. -/
def BUFFER_SIZE : ℕ := 3

/-- A frame as delivered by the UVC driver callback (`frame.contents`):
dimensions, payload byte count, and sample data. -/
structure FrameMsg where
  width : ℕ
  height : ℕ
  dataBytes : ℕ
  data : Frame
deriving DecidableEq, Repr

/-- `if not q.full(): q.put(data)` — non-blocking enqueue-or-drop (a total
function: the producer never blocks).  The queue is the list of queued
frames, oldest first; `pop` takes the head. -/
def push {α : Type} (cap : ℕ) (q : List α) (x : α) : List α :=
  if q.length < cap then q ++ [x] else q

/-- A sequence of producer pushes. -/
def pushAll {α : Type} (cap : ℕ) (q : List α) (xs : List α) : List α :=
  xs.foldl (push cap) q

/-- `py_frame_callback`: drop the frame before buffering when its byte count
differs from `2 * width * height`, otherwise enqueue-or-drop.  In `main.py`
the queue capacity is fixed to `BUFFER_SIZE`; it is a parameter here so the
statements cover any capacity `C`. -/
def py_frame_callback (cap : ℕ) (q : List FrameMsg) (fr : FrameMsg) : List FrameMsg :=
  if fr.dataBytes ≠ 2 * fr.width * fr.height then q else push cap q fr

lemma pushAll_eq_append_take {α : Type} (cap : ℕ) :
    ∀ (xs : List α) (q : List α), pushAll cap q xs = q ++ xs.take (cap - q.length) := by
  intro xs
  induction xs with
  | nil => intro q; simp [pushAll]
  | cons x xs ih =>
    intro q
    show pushAll cap (push cap q x) xs = _
    unfold push
    by_cases h : q.length < cap
    · rw [if_pos h, ih]
      have hm : cap - q.length = (cap - (q.length + 1)) + 1 := by omega
      rw [List.length_append, List.length_cons, List.length_nil, hm, List.take_succ_cons,
        List.append_assoc]
      rfl
    · rw [if_neg h, ih]
      have h0 : cap - q.length = 0 := by omega
      rw [h0]
      simp

lemma foldl_callback_eq_pushAll (cap : ℕ) :
    ∀ (xs : List FrameMsg) (q : List FrameMsg),
      (∀ f ∈ xs, f.dataBytes = 2 * f.width * f.height) →
      xs.foldl (py_frame_callback cap) q = pushAll cap q xs := by
  intro xs
  induction xs with
  | nil => intro q _; rfl
  | cons x xs ih =>
    intro q hval
    show xs.foldl (py_frame_callback cap) (py_frame_callback cap q x) = _
    have hx : py_frame_callback cap q x = push cap q x := by
      unfold py_frame_callback
      rw [if_neg (by simpa using hval x (List.mem_cons_self _ _))]
    rw [hx]
    exact ih (push cap q x) (fun f hf => hval f (List.mem_cons_of_mem _ hf))

/-- Claim C3: a push onto a buffer at capacity discards the new frame and
leaves the queued contents unchanged; no push blocks (`py_frame_callback` is
a total function); and pushing `C + k` valid frames into an empty buffer of
capacity `C` before any pop leaves exactly the first `C` frames queued, in
push order. -/
theorem buffer_drop_on_full (cap k : ℕ) (q : List FrameMsg) (x : FrameMsg)
    (xs : List FrameMsg) (hq : q.length = cap) (hxs : xs.length = cap + k)
    (hval : ∀ f ∈ xs, f.dataBytes = 2 * f.width * f.height) :
    py_frame_callback cap q x = q ∧
    xs.foldl (py_frame_callback cap) [] = xs.take cap := by
  constructor
  · unfold py_frame_callback push
    by_cases hv : x.dataBytes ≠ 2 * x.width * x.height
    · rw [if_pos hv]
    · rw [if_neg hv, if_neg (by omega)]
  · rw [foldl_callback_eq_pushAll cap xs [] hval, pushAll_eq_append_take]
    simp

/-- Witness for C3 at capacity `BUFFER_SIZE = 3` with 4 valid frames pushed
and a full queue. -/
theorem buffer_drop_on_full_witness :
    py_frame_callback BUFFER_SIZE
        [⟨160, 120, 38400, [[1]]⟩, ⟨160, 120, 38400, [[2]]⟩, ⟨160, 120, 38400, [[3]]⟩]
        ⟨160, 120, 38400, [[9]]⟩ =
      [⟨160, 120, 38400, [[1]]⟩, ⟨160, 120, 38400, [[2]]⟩, ⟨160, 120, 38400, [[3]]⟩] ∧
    ([⟨160, 120, 38400, [[4]]⟩, ⟨160, 120, 38400, [[5]]⟩, ⟨160, 120, 38400, [[6]]⟩,
        ⟨160, 120, 38400, [[7]]⟩] : List FrameMsg).foldl (py_frame_callback BUFFER_SIZE) [] =
      ([⟨160, 120, 38400, [[4]]⟩, ⟨160, 120, 38400, [[5]]⟩, ⟨160, 120, 38400, [[6]]⟩,
        ⟨160, 120, 38400, [[7]]⟩] : List FrameMsg).take BUFFER_SIZE :=
  buffer_drop_on_full BUFFER_SIZE 1
    [⟨160, 120, 38400, [[1]]⟩, ⟨160, 120, 38400, [[2]]⟩, ⟨160, 120, 38400, [[3]]⟩]
    ⟨160, 120, 38400, [[9]]⟩
    [⟨160, 120, 38400, [[4]]⟩, ⟨160, 120, 38400, [[5]]⟩, ⟨160, 120, 38400, [[6]]⟩,
      ⟨160, 120, 38400, [[7]]⟩]
    (by decide) (by decide) (by decide)

/-! ### Region registry (`del_roi` lines 346-365, `add_roi` lines 298-323)

Regions are distinct Python objects compared with `is`; embedded as a list of
distinct identities (`ℕ`), in insertion order.  `del_roi(remove_roi)` is
called either from the delete button — whose `clicked` signal passes
`False`, so `remove_roi == False` and the last region is chosen — or from a
region's `sigRemoveRequested` with the region itself.
-/

/-- `del_roi`: with no explicit identity (`remove_roi == False`) pick
`self.ROIs[-1]`, which raises `IndexError` on an empty registry; then remove
the chosen region from the list by identity (`roi is remove_roi`). -/
def del_roi (rois : List ℕ) (removeRoi : Option ℕ) : Except String (List ℕ) :=
  match removeRoi with
  | none =>
    match rois.getLast? with
    | none => .error "IndexError: list index out of range"
    | some last => .ok (rois.erase last)
  | some r => .ok (rois.erase r)

/-- The table's row labels rebuilt after a removal (lines 357-363): row 0 is
`"  frame"`; row `i` for `1 ≤ i ≤ maxROIs` is `"  ROI " + str(i-1)` when
`i <= len(self.ROIs)` and blank otherwise — dense labels `0..count-1`. -/
def columnLabels (count maxROIs : ℕ) : List String :=
  "  frame" :: (List.range maxROIs).map
    (fun j => if j < count then "  ROI " ++ toString j else "")

/-- Claim C7: on a duplicate-free nonempty registry, `del_roi` with no
explicit identity removes the most-recently-added region; removal by
identity removes exactly that region, preserving the relative order of the
others; and the rebuilt labels are the dense range `0..count-1`. -/
theorem del_roi_renumbers (rois : List ℕ) (maxROIs : ℕ)
    (hnd : rois.Nodup) (hne : rois ≠ []) :
    del_roi rois none = .ok rois.dropLast ∧
    (∀ t l₁ l₂, rois = l₁ ++ t :: l₂ → del_roi rois (some t) = .ok (l₁ ++ l₂)) ∧
    (∀ count j, j < maxROIs →
      (columnLabels count maxROIs)[j + 1]? =
        some (if j < count then "  ROI " ++ toString j else "")) := by
  refine ⟨?_, ?_, ?_⟩
  · have hdecomp : rois.dropLast ++ [rois.getLast hne] = rois :=
      List.dropLast_append_getLast hne
    have hlast : rois.getLast? = some (rois.getLast hne) :=
      List.getLast?_eq_getLast rois hne
    generalize hb : rois.getLast hne = b at hdecomp hlast
    have hnotmem : b ∉ rois.dropLast := by
      intro hmem
      have hnot : ¬ (rois.dropLast ++ [b]).Nodup := by
        rw [List.nodup_append]
        intro ⟨_, _, hdisj⟩
        exact hdisj hmem (List.mem_singleton_self _)
      rw [hdecomp] at hnot
      exact hnot hnd
    have herase : rois.erase b = rois.dropLast := by
      conv_lhs => rw [← hdecomp]
      rw [List.erase_append_right _ hnotmem, List.erase_cons_head, List.append_nil]
    show (match rois.getLast? with
      | none => Except.error "IndexError: list index out of range"
      | some last => Except.ok (rois.erase last)) = _
    rw [hlast]
    show Except.ok (rois.erase b) = _
    rw [herase]
  · intro t l₁ l₂ hsplit
    have hnotmem : t ∉ l₁ := by
      rw [hsplit, List.nodup_append] at hnd
      exact fun hmem => hnd.2.2 hmem (List.mem_cons_self _ _)
    show Except.ok (rois.erase t) = _
    rw [hsplit, List.erase_append_right _ hnotmem, List.erase_cons_head]
  · intro count j hj
    unfold columnLabels
    rw [List.getElem?_cons_succ, List.getElem?_map, List.getElem?_range hj]
    rfl

/-- Witness for C7: three regions, removing the second leaves the first and
third in order, and the labels are `"  ROI 0"`, `"  ROI 1"`, then blanks. -/
theorem del_roi_renumbers_witness :
    del_roi [10, 20, 30] none = .ok ([10, 20, 30] : List ℕ).dropLast ∧
    (∀ t l₁ l₂, ([10, 20, 30] : List ℕ) = l₁ ++ t :: l₂ →
      del_roi [10, 20, 30] (some t) = .ok (l₁ ++ l₂)) ∧
    (∀ count j, j < 10 →
      (columnLabels count 10)[j + 1]? =
        some (if j < count then "  ROI " ++ toString j else "")) :=
  del_roi_renumbers [10, 20, 30] 10 (by decide) (by decide)

/-- Claim C9: invoking `del_roi` with no explicit identity on an empty
registry raises an uncaught `IndexError` (from `self.ROIs[-1]`) rather than
being a graceful no-op. -/
theorem del_roi_empty_raises :
    del_roi [] none = .error "IndexError: list index out of range" := rfl

/-! ### Control server: connection handling (`client_connected` lines 410-419) -/

/-- What `client_connected` does with the pending socket it takes via
`nextPendingConnection()`: store it as the active connection, or — when a
client is already active — drop the reference without closing it (the `else`
branch only logs; there is no `close()`/`disconnectFromHost()` call, so the
second connection stays open, merely ignored). -/
inductive SocketDisposition
  | accepted
  | ignoredLeftOpen
  | closed
deriving DecidableEq, Repr

/-- `client_connected`: result is (new state, what happened to the pending
socket, replies written to it — none in either branch). -/
def client_connected (st : ServerState) (newClient : ℕ) :
    ServerState × SocketDisposition × List String :=
  match st.clientConnection with
  | none => ({ st with clientConnection := some newClient }, .accepted, [])
  | some _ => (st, .ignoredLeftOpen, [])

/-- A concrete server state with an active client, used as the concrete
input for the control-server claims. -/
def snapSt : ServerState :=
  ⟨some 0, "screenshots", "FLIR", none, false, [("frame", ⟨0, 0, 0⟩)]⟩

/-- Counterexample to C6 as stated: on a second inbound connection the code
does not close the new socket — the `else` branch of `client_connected` only
logs and drops the reference, leaving the socket open. -/
theorem second_connection_not_closed_cex :
    (client_connected snapSt 1).2.1 ≠ SocketDisposition.closed := by decide

/-- Claim C6 amended: while a client is active, every additional inbound
connection attempt gets no reply, the server state — active connection and
all pending fields — is completely unchanged, and the new socket is left
open but ignored (its reference dropped) rather than closed. -/
theorem second_connection_ignored (st : ServerState) (newClient c : ℕ)
    (hconn : st.clientConnection = some c) :
    client_connected st newClient = (st, .ignoredLeftOpen, []) := by
  unfold client_connected
  rw [hconn]

/-- Witness for amended C6 at a concrete connected state. -/
theorem second_connection_ignored_witness :
    client_connected snapSt 1 = (snapSt, .ignoredLeftOpen, []) :=
  second_connection_ignored snapSt 1 0 rfl

/-! ### Control server: command handling (`client_command` lines 426-442)

The handler decodes the received bytes as strict ASCII
(`str(prefix, encoding='ascii')` raises `UnicodeDecodeError` on any byte
≥ 128, before any attribute is assigned), strips whitespace, stores the
result as the screenshot file-name prefix, composes the file name with
`now.strftime(str(self.folder) + "/" + self.prefix + self.postfix)` plus
`self.image_format`, sets the screenshot flag, and replies with a JSON
object `{"file name": ..., <stripped snapshot keys>: ...}`.

`strftime` is applied to the whole concatenation, so `%` directives are
expanded wherever they occur — including inside the client-controlled
prefix.  The expansion of each directive at the request's current time is a
parameter `exp : Char → String` (e.g. `exp 'Y'` the four-digit year,
`exp '%'` = `"%"`; an implementation-defined pass-through like `%q → "%q"`
is `exp 'q' = "%q"`).  The code's own format `self.postfix =
"_%Y-%m-%d_%H-%M-%S_heatmap"` uses only plain two-character directives, so
locale modifiers (`%E`/`%O`) never arise from the fixed format.
-/

/-- Python `str.isspace()`: true exactly for `\t \n \x0b \x0c \r`,
`\x1c`-`\x1f`, space, `\x85`, `\xa0`, and the Unicode space separators
(U+1680, U+2000-U+200A, U+2028, U+2029, U+202F, U+205F, U+3000). -/
def pyIsSpace (c : Char) : Bool :=
  let n := c.toNat
  (9 ≤ n && n ≤ 13) || (28 ≤ n && n ≤ 31) || n == 32 || n == 133 || n == 160 ||
  n == 5760 || (8192 ≤ n && n ≤ 8202) || n == 8232 || n == 8233 || n == 8239 ||
  n == 8287 || n == 12288

/-- Python `str.strip()`: remove leading and trailing characters for which
`str.isspace()` holds. -/
def pyStrip (s : String) : String :=
  ⟨((s.data.dropWhile pyIsSpace).reverse.dropWhile pyIsSpace).reverse⟩

/-- `str(bytes, encoding='ascii')`: strict ASCII decode; raises
(`Except.error`) on any byte outside the ASCII range. -/
def decodeAscii (bs : List ℕ) : Except Unit String :=
  if bs.all (· < 128) then .ok ⟨bs.map Char.ofNat⟩ else .error ()

/-- `self.postfix = "_%Y-%m-%d_%H-%M-%S_heatmap"` (line 47): the format
string appended after the prefix before `strftime` is applied. -/
def tailFmt : String := "_%Y-%m-%d_%H-%M-%S_heatmap"

/-- The fixed text of `self.postfix` after the timestamp directives. -/
def fixedSuffix : String := "_heatmap"

/-- `self.image_format = ".tiff"` (line 48). -/
def image_format : String := ".tiff"

/-- `strftime` over a character list: each `%`-directive pair `%c` is
replaced by its expansion `exp c` at the current time; other characters are
copied; a lone trailing `%` is passed through. -/
def strftimeChars (exp : Char → String) : List Char → List Char
  | [] => []
  | c :: rest =>
    if c = '%' then
      match rest with
      | [] => ['%']
      | d :: rest' => (exp d).data ++ strftimeChars exp rest'
    else c :: strftimeChars exp rest

/-- `now.strftime(fmt)` with directive expansions `exp`. -/
def strftime (exp : Char → String) (fmt : String) : String :=
  ⟨strftimeChars exp fmt.data⟩

/-- The timestamp `"%Y-%m-%d_%H-%M-%S"` as rendered by `strftime` at the
current time. -/
def renderedTimestamp (exp : Char → String) : String :=
  exp 'Y' ++ "-" ++ exp 'm' ++ "-" ++ exp 'd' ++ "_" ++
    exp 'H' ++ "-" ++ exp 'M' ++ "-" ++ exp 'S'

/-- `now.strftime(str(self.folder) + "/" + self.prefix + self.postfix) +
self.image_format` (lines 432-434): `strftime` runs over the whole
concatenation, then the extension is appended. -/
def composeFileName (exp : Char → String) (folder p : String) : String :=
  strftime exp (folder ++ "/" ++ p ++ tailFmt) ++ image_format

/-- A concrete directive expansion: the current time 2024-05-06 07:08:09. -/
def expTest : Char → String
  | 'Y' => "2024"
  | 'm' => "05"
  | 'd' => "06"
  | 'H' => "07"
  | 'M' => "08"
  | 'S' => "09"
  | '%' => "%"
  | _ => ""

/-- A value of the JSON reply object: the `"file name"` string or a
statistics entry. -/
inductive ReplyVal
  | str : String → ReplyVal
  | stats : Stats → ReplyVal
deriving DecidableEq, Repr

/-- `client_command`: decode, strip, store prefix, compose the file name by
`strftime` at the current time (directive expansions `exp`), set the
screenshot flag, and reply with the file name followed by the published
snapshot entries with stripped keys.  A decode error propagates before any
state mutation and nothing is written back. -/
def client_command (st : ServerState) (payload : List ℕ) (exp : Char → String) :
    Except Unit (ServerState × List (String × ReplyVal)) :=
  match decodeAscii payload with
  | .error e => .error e
  | .ok s =>
    let p := pyStrip s
    let fn := composeFileName exp st.folder p
    let st' := { st with pfx := p, fileName := some fn, snapshotFlag := true }
    let reply := ("file name", ReplyVal.str fn) ::
      st.temperatures.map (fun kv => (pyStrip kv.1, ReplyVal.stats kv.2))
    .ok (st', reply)

lemma strftimeChars_cons_ne (exp : Char → String) (c : Char) (rest : List Char)
    (h : ¬ c = '%') : strftimeChars exp (c :: rest) = c :: strftimeChars exp rest := by
  cases rest with
  | nil => rw [strftimeChars.eq_2, if_neg h]
  | cons d rest' => rw [strftimeChars.eq_3, if_neg h]

lemma strftimeChars_append_no_pct (exp : Char → String) :
    ∀ (pre rest : List Char), ('%' : Char) ∉ pre →
      strftimeChars exp (pre ++ rest) = pre ++ strftimeChars exp rest := by
  intro pre
  induction pre with
  | nil => intro rest _; rfl
  | cons c pre ih =>
    intro rest hp
    have hc : ¬ c = '%' := by
      intro h; exact hp (h ▸ List.mem_cons_self _ _)
    rw [List.cons_append, strftimeChars_cons_ne exp c _ hc, ih rest
      (fun hm => hp (List.mem_cons_of_mem _ hm)), List.cons_append]

lemma strftimeChars_tailFmt (exp : Char → String) :
    strftimeChars exp tailFmt.data =
      ("_" ++ renderedTimestamp exp ++ fixedSuffix).data := by
  simp [tailFmt, strftimeChars, renderedTimestamp, fixedSuffix, String.data_append]

/-- When neither the folder nor the stripped prefix contains a `%`
directive, the composed file name is literally
`folder/prefix_<timestamp>_heatmap.tiff`. -/
lemma composeFileName_no_pct (exp : Char → String) (folder p : String)
    (hf : ('%' : Char) ∉ folder.data) (hp : ('%' : Char) ∉ p.data) :
    composeFileName exp folder p =
      folder ++ "/" ++ p ++ "_" ++ renderedTimestamp exp ++ fixedSuffix ++ image_format := by
  have hpre : ('%' : Char) ∉ (folder ++ "/" ++ p).data := by
    rw [String.data_append, String.data_append]
    intro hm
    rcases List.mem_append.1 hm with hm | hm
    · rcases List.mem_append.1 hm with hm | hm
      · exact hf hm
      · exact absurd hm (by decide)
    · exact hp hm
  have hdata : (folder ++ "/" ++ p ++ tailFmt).data =
      (folder ++ "/" ++ p).data ++ tailFmt.data := String.data_append _ _
  apply String.ext
  rw [String.data_append]
  show strftimeChars exp ((folder ++ "/" ++ p ++ tailFmt)).data ++ image_format.data = _
  rw [hdata, strftimeChars_append_no_pct exp _ _ hpre, strftimeChars_tailFmt]
  simp [String.data_append, List.append_assoc]

/-- Counterexample to C5 as stated: for payload `"snap1"` the reply's file
name is `screenshots/snap1_<timestamp>_heatmap.tiff`, which does not end in
`snap1<suffix><timestamp><extension>` — the fixed suffix comes after the
timestamp, not before it. -/
theorem client_reply_filename_order_cex :
    (∃ st' reply,
      client_command snapSt [115, 110, 97, 112, 49] expTest = .ok (st', reply) ∧
      reply.head? = some ("file name",
        ReplyVal.str "screenshots/snap1_2024-05-06_07-08-09_heatmap.tiff")) ∧
    ¬ (("snap1" ++ fixedSuffix ++ "_" ++ "2024-05-06_07-08-09" ++ image_format).data <:+
        ("screenshots/snap1_2024-05-06_07-08-09_heatmap.tiff" : String).data) := by
  constructor
  · exact ⟨_, _, rfl, by decide⟩
  · decide

/-- Claim C5 amended: for every all-ASCII client payload whose stripped
prefix contains no `%` directive character (as does the configured folder),
the synchronous JSON reply starts with a `"file name"` entry equal to
`folder/prefix_<timestamp>_heatmap.tiff` — composed from the current
folder, stripped prefix, current time, fixed suffix and extension, with the
timestamp before the fixed suffix — and hence ending in
`<prefix>_<timestamp><suffix><extension>`; its `"frame"` entry equals the
frame statistics of the most recently published snapshot, with all snapshot
label whitespace stripped in the reply keys; and the handler stores the
stripped prefix and sets the screenshot flag.  (A `%` in the payload is
expanded by `strftime`, so the literal-prefix conclusion needs the
`%`-freeness hypotheses.) -/
theorem client_reply_filename (st : ServerState) (fs : Stats)
    (rest : List (String × Stats)) (payload : List ℕ) (exp : Char → String)
    (hascii : payload.all (· < 128) = true)
    (htemps : st.temperatures = ("frame", fs) :: rest)
    (hfolder : ('%' : Char) ∉ st.folder.data)
    (hpfx : ('%' : Char) ∉ (pyStrip ⟨payload.map Char.ofNat⟩).data) :
    ∃ st' reply,
      client_command st payload exp = .ok (st', reply) ∧
      reply.head? = some ("file name",
        ReplyVal.str (composeFileName exp st.folder (pyStrip ⟨payload.map Char.ofNat⟩))) ∧
      composeFileName exp st.folder (pyStrip ⟨payload.map Char.ofNat⟩) =
        st.folder ++ "/" ++ pyStrip ⟨payload.map Char.ofNat⟩ ++ "_" ++
          renderedTimestamp exp ++ fixedSuffix ++ image_format ∧
      ((pyStrip ⟨payload.map Char.ofNat⟩ ++ "_" ++ renderedTimestamp exp ++
          fixedSuffix ++ image_format).data <:+
        (composeFileName exp st.folder (pyStrip ⟨payload.map Char.ofNat⟩)).data) ∧
      reply.lookup "frame" = some (ReplyVal.stats fs) ∧
      st'.pfx = pyStrip ⟨payload.map Char.ofNat⟩ ∧
      st'.snapshotFlag = true := by
  have hdec : decodeAscii payload = .ok ⟨payload.map Char.ofNat⟩ := by
    unfold decodeAscii
    rw [if_pos hascii]
  have heq : client_command st payload exp = .ok
      ({ st with
          pfx := pyStrip ⟨payload.map Char.ofNat⟩,
          fileName := some (composeFileName exp st.folder (pyStrip ⟨payload.map Char.ofNat⟩)),
          snapshotFlag := true },
        ("file name", ReplyVal.str (composeFileName exp st.folder
            (pyStrip ⟨payload.map Char.ofNat⟩))) ::
          st.temperatures.map (fun kv => (pyStrip kv.1, ReplyVal.stats kv.2))) := by
    unfold client_command
    rw [hdec]
  have hcomp := composeFileName_no_pct exp st.folder (pyStrip ⟨payload.map Char.ofNat⟩)
    hfolder hpfx
  refine ⟨_, _, heq, rfl, hcomp, ?_, ?_, rfl, rfl⟩
  · rw [hcomp]
    refine ⟨(st.folder ++ "/").data, ?_⟩
    simp [String.data_append, List.append_assoc]
  · rw [htemps, List.map_cons]
    have h1 : pyStrip "frame" = "frame" := by decide
    rw [List.lookup_cons, List.lookup_cons]
    have h2 : ("frame" == "file name") = false := by decide
    rw [h2, h1]
    simp

/-- Witness for amended C5 at payload `"snap1"` and the concrete time of
`expTest`. -/
theorem client_reply_filename_witness :
    ∃ st' reply,
      client_command snapSt [115, 110, 97, 112, 49] expTest = .ok (st', reply) ∧
      reply.head? = some ("file name",
        ReplyVal.str (composeFileName expTest snapSt.folder
          (pyStrip ⟨[115, 110, 97, 112, 49].map Char.ofNat⟩))) ∧
      composeFileName expTest snapSt.folder (pyStrip ⟨[115, 110, 97, 112, 49].map Char.ofNat⟩) =
        snapSt.folder ++ "/" ++ pyStrip ⟨[115, 110, 97, 112, 49].map Char.ofNat⟩ ++ "_" ++
          renderedTimestamp expTest ++ fixedSuffix ++ image_format ∧
      ((pyStrip ⟨[115, 110, 97, 112, 49].map Char.ofNat⟩ ++ "_" ++ renderedTimestamp expTest ++
          fixedSuffix ++ image_format).data <:+
        (composeFileName expTest snapSt.folder
          (pyStrip ⟨[115, 110, 97, 112, 49].map Char.ofNat⟩)).data) ∧
      reply.lookup "frame" = some (ReplyVal.stats ⟨0, 0, 0⟩) ∧
      st'.pfx = pyStrip ⟨[115, 110, 97, 112, 49].map Char.ofNat⟩ ∧
      st'.snapshotFlag = true :=
  client_reply_filename snapSt ⟨0, 0, 0⟩ [] [115, 110, 97, 112, 49]
    expTest (by decide) rfl (by decide) (by decide)

/-- Claim C10: a payload with any byte outside the ASCII range makes the
handler raise before any state mutation — no reply, no new state — while an
all-ASCII payload produces a reply. -/
theorem nonascii_payload_rejected (st : ServerState) (payload : List ℕ)
    (exp : Char → String) :
    (payload.all (· < 128) = false → client_command st payload exp = .error ()) ∧
    (payload.all (· < 128) = true → ∃ r, client_command st payload exp = .ok r) := by
  constructor
  · intro h
    unfold client_command decodeAscii
    rw [if_neg (by rw [h]; exact Bool.false_ne_true)]
  · intro h
    have hdec : decodeAscii payload = .ok ⟨payload.map Char.ofNat⟩ := by
      unfold decodeAscii
      rw [if_pos h]
    have heq : client_command st payload exp = .ok
        ({ st with
            pfx := pyStrip ⟨payload.map Char.ofNat⟩,
            fileName := some (composeFileName exp st.folder (pyStrip ⟨payload.map Char.ofNat⟩)),
            snapshotFlag := true },
          ("file name", ReplyVal.str (composeFileName exp st.folder
              (pyStrip ⟨payload.map Char.ofNat⟩))) ::
            st.temperatures.map (fun kv => (pyStrip kv.1, ReplyVal.stats kv.2))) := by
      unfold client_command
      rw [hdec]
    exact ⟨_, heq⟩

/-- Witness for C10: byte 200 aborts the handler with no reply; the all-ASCII
payload `"hi"` produces one. -/
theorem nonascii_payload_rejected_witness :
    ([104, 200].all (· < 128) = false) ∧
    client_command snapSt [104, 200] expTest = .error () ∧
    ([104, 105].all (· < 128) = true) ∧
    ∃ r, client_command snapSt [104, 105] expTest = .ok r :=
  ⟨by decide,
    (nonascii_payload_rejected snapSt [104, 200] expTest).1 (by decide),
    by decide,
    (nonascii_payload_rejected snapSt [104, 105] expTest).2 (by decide)⟩

end FLIRROI
